import Mathlib

/-!
Shallow embedding of the section-aware election parser in `src/app.py`
(function `parse_election_data`), together with proofs about it.

Modelling notes, matched line by line against the source:
* The function first converts the whole frame to strings
  (`df_str = df.astype(str)`), under which an absent cell reads as the
  text "nan" and a numeric cell as its decimal rendering.  A `Cell` is
  therefore either `empty` (rendered "nan") or a text value.
* Python string operations (`strip`, `lower`, `upper`, `startswith`,
  substring membership, `' '.join`) are implemented here on `List Char`.
* `int(float(x))` is modelled by `coerceInt`: a finite decimal literal
  parses to a rational and truncates toward zero; the markers
  "inf"/"infinity" parse to an infinite value whose integer conversion
  raises `OverflowError` in Python (uncaught by the row handler, which
  only catches `ValueError` and `IndexError`); "nan" and unparsable text
  raise `ValueError` (a silent row skip).  Exponent and underscore forms
  of Python float literals are not modelled; no claim or input below
  uses them, and binary floating-point rounding is likewise irrelevant
  at the small magnitudes involved.
-/

/-- A spreadsheet cell after loading, as seen by the parser once the frame
has been converted to strings: an absent value reads as the text "nan". -/
inductive Cell where
  | empty : Cell
  | text : String → Cell
  deriving DecidableEq, Repr

/-- The string view of a cell, as produced by `df.astype(str)`. -/
def cellStr : Cell → String
  | Cell.empty => "nan"
  | Cell.text s => s

/-- A per-party result record (`{'Party': …, 'Votes': …, 'Seats': …}`). -/
structure Record where
  party : String
  votes : Int
  seats : Int
  deriving DecidableEq, Repr

-- Decidable equality of run outcomes, for concrete evaluation.
deriving instance DecidableEq for Except

/-- Whitespace characters removed by Python `str.strip`. -/
def isWS (c : Char) : Bool :=
  c == ' ' || c == '\t' || c == '\n' || c == '\r' || c == '\x0b' || c == '\x0c'

/-- Strip leading and trailing whitespace from a character list. -/
def trimL (l : List Char) : List Char :=
  ((l.dropWhile isWS).reverse.dropWhile isWS).reverse

/-- Lower-case a character list (Python `str.lower` on ASCII data). -/
def lowerL (l : List Char) : List Char := l.map Char.toLower

/-- Upper-case a character list (Python `str.upper` on ASCII data). -/
def upperL (l : List Char) : List Char := l.map Char.toUpper

/-- Python `s.strip()`. -/
def stripStr (s : String) : String := String.mk (trimL s.toList)

/-- Python `s.upper()`. -/
def upperStr (s : String) : String := String.mk (upperL s.toList)

/-- Boolean test that `p` is a leading segment of `l` (`str.startswith`). -/
def isPreL : List Char → List Char → Bool
  | [], _ => true
  | _ :: _, [] => false
  | a :: xs, b :: ys => a == b && isPreL xs ys

/-- Boolean test that `p` occurs contiguously inside `l` (Python `in`). -/
def isSubL (p : List Char) : List Char → Bool
  | [] => p.isEmpty
  | b :: rest => isPreL p (b :: rest) || isSubL p rest

/-- The section-title marker for ordinal `n`: the text `"n -"`. -/
def secPre (n : Nat) : String := toString n ++ " -"

/-- The tuple of accepted title markers `"1 -"` … `"23 -"` built at app.py:25
and spelled out literally at app.py:28. -/
def secPres : List String := (List.range' 1 23).map secPre

/-- The section-detection test on one cell (app.py:22-29): the stripped cell
text must start with one of the numbered markers (checked once on the
original casing and once on the lower-cased text) and must contain
"council" or "sabha" case-insensitively. -/
def cellQualifies (s : String) : Bool :=
  isPreAny (trimL s.toList) && isPreAny (lowerL (trimL (trimL s.toList)))
    && (isSubL "council".toList (lowerL (trimL (trimL s.toList)))
        || isSubL "sabha".toList (lowerL (trimL (trimL s.toList))))
where
  /-- `startswith` against the tuple of markers. -/
  isPreAny (l : List Char) : Bool := secPres.any fun p => isPreL p.toList l

/-- Scan the cells of one row in column order; the first qualifying cell
yields the section title (its stripped text) and ends the scan
(the `break` at app.py:31). -/
def rowSectionCell : List Cell → Option String
  | [] => none
  | c :: rest =>
      if cellQualifies (cellStr c) then some (stripStr (cellStr c))
      else rowSectionCell rest

/-- Row scan of the grid starting at row index `i` (app.py:20-31). -/
def detectFrom : Nat → List (List Cell) → List (Nat × String)
  | _, [] => []
  | i, row :: rest =>
      match rowSectionCell row with
      | some t => (i, t) :: detectFrom (i + 1) rest
      | none => detectFrom (i + 1) rest

/-- `council_sections`: the ordered list of `(rowIndex, title)` pairs. -/
def detectSections (g : List (List Cell)) : List (Nat × String) :=
  detectFrom 0 g

/-- Pair every detected section with its exclusive end row: the start row of
the next section, or the grid length for the last one (app.py:40-43). -/
def withEnds : List (Nat × String) → Nat → List (Nat × String × Nat)
  | [], _ => []
  | [(r, t)], n => [(r, t, n)]
  | (r, t) :: (r2, t2) :: rest, n => (r, t, r2) :: withEnds ((r2, t2) :: rest) n

/-- The upper-cased space-joined text of a row
(`' '.join(row.values).upper()` at app.py:58). -/
def rowJoined (row : List Cell) : List Char :=
  upperL (List.intercalate [' '] (row.map fun c => (cellStr c).toList))

/-- Header-row test (app.py:59): the joined row text contains all of
"PARTY", "VOTES" and "TOTAL". -/
def isHeaderRow (row : List Cell) : Bool :=
  isSubL "PARTY".toList (rowJoined row) && isSubL "VOTES".toList (rowJoined row)
    && isSubL "TOTAL".toList (rowJoined row)

/-- `row_data` (app.py:66): the row's cell strings with the values
`'nan'` and `''` removed, preserving column order. -/
def rowData (row : List Cell) : List String :=
  (row.map cellStr).filter fun s => !(s == "nan") && !(s == "")

/-- Outcome of parsing one string as a Python float. -/
inductive PyFloat where
  | fin (q : Rat)
  | inf
  | ninf
  | nan
  deriving DecidableEq, Repr

/-- Numeric value of a digit string read in base 10. -/
def natOfDigits (l : List Char) : Nat :=
  l.foldl (fun a c => a * 10 + (c.toNat - 48)) 0

/-- Parse an unsigned decimal literal (digits with at most one point and at
least one digit) as an exact rational. -/
def parseMantissa (l : List Char) : Option Rat :=
  match l.splitOn '.' with
  | [a] =>
      if a.all Char.isDigit && !a.isEmpty then some ((natOfDigits a : Nat) : Rat)
      else none
  | [a, b] =>
      if a.all Char.isDigit && b.all Char.isDigit && !(a.isEmpty && b.isEmpty) then
        some ((natOfDigits a : Rat) + (natOfDigits b : Rat) / ((10 : Rat) ^ b.length))
      else none
  | _ => none

/-- Python `float(s)` on the forms relevant here: surrounding whitespace is
stripped, an optional sign is read, then either an infinity marker, the
not-a-number marker, or a finite decimal literal. -/
def parsePyFloat (s : String) : Option PyFloat :=
  parseSigned (trimL s.toList)
where
  parseCore (neg : Bool) (core : List Char) : Option PyFloat :=
    if lowerL core = "inf".toList || lowerL core = "infinity".toList then
      some (if neg then PyFloat.ninf else PyFloat.inf)
    else if lowerL core = "nan".toList then some PyFloat.nan
    else
      match parseMantissa core with
      | some q => some (PyFloat.fin (if neg then -q else q))
      | none => none
  parseSigned : List Char → Option PyFloat
    | '-' :: rest => parseCore true rest
    | '+' :: rest => parseCore false rest
    | l => parseCore false l

/-- Truncate a rational toward zero, as Python `int()` does on a float. -/
def truncRat (q : Rat) : Int := Int.tdiv q.num (q.den : Int)

/-- Result of evaluating `int(float(s))` in Python. -/
inductive CoRes where
  | ok (n : Int)
  | valErr
  | ovErr
  deriving DecidableEq, Repr

/-- `int(float(s))`: a `ValueError` for unparsable text or a parsed NaN, an
`OverflowError` for a parsed infinity, otherwise the truncated integer. -/
def coerceInt (s : String) : CoRes :=
  match parsePyFloat s with
  | none => CoRes.valErr
  | some PyFloat.nan => CoRes.valErr
  | some PyFloat.inf => CoRes.ovErr
  | some PyFloat.ninf => CoRes.ovErr
  | some (PyFloat.fin q) => CoRes.ok (truncRat q)

/-- One votes/seats field (app.py:72-73): the guard `if x != 'nan' else 0`
runs first, then the conversion. -/
def coerceField (s : String) : CoRes :=
  if s = "nan" then CoRes.ok 0 else coerceInt s

/-- What processing one data row does: emit a record, skip silently, or
raise an exception not caught by the row handler. -/
inductive RowStep where
  | skip
  | emit (r : Record)
  | err
  deriving DecidableEq, Repr

/-- The data-row body (app.py:66-84): require at least three usable values,
convert votes then seats (a `ValueError` skips the row via the handler at
app.py:82, an `OverflowError` escapes it), and drop summary rows whose
first value upper-cases to exactly "TOTAL". -/
def stepRow (row : List Cell) : RowStep :=
  if (rowData row).length < 3 then RowStep.skip
  else
    match coerceField ((rowData row).getD 1 "") with
    | CoRes.ovErr => RowStep.err
    | CoRes.valErr => RowStep.skip
    | CoRes.ok n =>
      match coerceField ((rowData row).getD 2 "") with
      | CoRes.ovErr => RowStep.err
      | CoRes.valErr => RowStep.skip
      | CoRes.ok m =>
        if upperStr ((rowData row).getD 0 "") = "TOTAL" then RowStep.skip
        else RowStep.emit ⟨(rowData row).getD 0 "", n, m⟩

/-- The record a row contributes, if any. -/
def emittedOf (row : List Cell) : Option Record :=
  match stepRow row with
  | RowStep.emit r => some r
  | _ => none

/-- The per-section row loop (app.py:49-84) over the rows after the title
row: before the header is found rows are only tested against the header
predicate; afterwards each row runs `stepRow`, and an escaping exception
aborts the whole section. -/
def runRows : List (List Cell) → Bool → Except Unit (List Record)
  | [], _ => Except.ok []
  | row :: rest, false =>
      if isHeaderRow row then runRows rest true else runRows rest false
  | row :: rest, true =>
      match stepRow row with
      | RowStep.skip => runRows rest true
      | RowStep.err => Except.error ()
      | RowStep.emit r =>
          match runRows rest true with
          | Except.error e => Except.error e
          | Except.ok recs => Except.ok (r :: recs)

/-- The rows of the section span strictly between the title row and the end
row (the loop skips `row_idx == start_idx` at app.py:53). -/
def sectionRows (g : List (List Cell)) (s e : Nat) : List (List Cell) :=
  (g.drop (s + 1)).take (e - (s + 1))

/-- Build one section's stored table (app.py:38-97): `none` if the section
raised (caught at the section boundary) or collected no raw records;
otherwise the raw records with zero- and negative-vote entries removed
(`council_df[council_df['Votes'] > 0]` at app.py:91) — stored even when
that filtered table is empty, because the guard at app.py:87 tests the
unfiltered list. -/
def processSection (g : List (List Cell)) (s e : Nat) : Option (List Record) :=
  match runRows (sectionRows g s e) false with
  | Except.error _ => none
  | Except.ok recs =>
      if recs.isEmpty then none
      else some (recs.filter fun r => decide (0 < r.votes))

/-- Python dict assignment `councils_data[name] = df`: replace in place if
the key exists, else append. -/
def insertRS (m : List (String × List Record)) (k : String) (v : List Record) :
    List (String × List Record) :=
  if m.any (fun p => decide (p.1 = k)) then
    m.map fun p => if p.1 = k then (k, v) else p
  else m ++ [(k, v)]

/-- Fold one section into the accumulated result mapping. -/
def stepSec (g : List (List Cell)) (m : List (String × List Record))
    (a : Nat × String × Nat) : List (String × List Record) :=
  match processSection g a.1 a.2.2 with
  | none => m
  | some tbl => insertRS m a.2.1 tbl

/-- The parser `parse_election_data` (app.py:9-99): detect the sections, pair
them with their end rows, and process them in order into the result
mapping (represented as an insertion-ordered association list, matching
Python dict iteration order). -/
def parse_election_data (g : List (List Cell)) : List (String × List Record) :=
  (withEnds (detectSections g) g.length).foldl (stepSec g) []

/-- The parse together with the diagnostic side channel (the `st.write` at
app.py:34 appends a message about the detected sections to the UI log); the
log models the only ambient state the function touches. -/
def parseWithLog (log : List String) (g : List (List Cell)) :
    List String × List (String × List Record) :=
  (log ++ [toString (detectSections g).length], parse_election_data g)

/-! Concrete grids used by the witness and counterexample theorems. -/

/-- Scenario A from the specification: two clean sections of the 8-row,
4-column worksheet. -/
def gridA : List (List Cell) :=
  [[Cell.text "1 - MANNAR URBAN COUNCIL", Cell.text "", Cell.text "", Cell.text ""],
   [Cell.text "Party", Cell.text "Votes", Cell.text "Total", Cell.text ""],
   [Cell.text "UNP", Cell.text "1500", Cell.text "2", Cell.text ""],
   [Cell.text "SLPP", Cell.text "1000", Cell.text "1", Cell.text ""],
   [Cell.text "TOTAL", Cell.text "2500", Cell.text "3", Cell.text ""],
   [Cell.text "2 - MANNAR PRADESHIYA SABHA", Cell.text "", Cell.text "", Cell.text ""],
   [Cell.text "Party", Cell.text "Votes", Cell.text "Total", Cell.text ""],
   [Cell.text "SLFP", Cell.text "800", Cell.text "1", Cell.text ""]]

/-- A section whose only party row has zero votes. -/
def gridZero : List (List Cell) :=
  [[Cell.text "1 - X COUNCIL", Cell.text "", Cell.text ""],
   [Cell.text "Party", Cell.text "Votes", Cell.text "Total", Cell.text ""],
   [Cell.text "UNP", Cell.text "0", Cell.text "1", Cell.text ""]]

/-- A section whose only party row has an untrimmed party cell and a
negative seats value. -/
def gridNeg : List (List Cell) :=
  [[Cell.text "1 - X COUNCIL", Cell.text "", Cell.text ""],
   [Cell.text "Party", Cell.text "Votes", Cell.text "Total"],
   [Cell.text " UNP ", Cell.text "5", Cell.text "-1"]]

/-- A section with an infinite votes value on one row followed by a valid
row. -/
def gridInf : List (List Cell) :=
  [[Cell.text "1 - X COUNCIL", Cell.text "", Cell.text ""],
   [Cell.text "Party", Cell.text "Votes", Cell.text "Total"],
   [Cell.text "A", Cell.text "inf", Cell.text "1"],
   [Cell.text "B", Cell.text "5", Cell.text "1"]]

/-- The grid of `gridInf` with the infinite row removed. -/
def gridInfCut : List (List Cell) :=
  [[Cell.text "1 - X COUNCIL", Cell.text "", Cell.text ""],
   [Cell.text "Party", Cell.text "Votes", Cell.text "Total"],
   [Cell.text "B", Cell.text "5", Cell.text "1"]]

/-- A row whose separator-free concatenation reads "PARTY VOTES TOTAL" even
though no single cell completes the token "PARTY". -/
def rowSplitHdr : List Cell :=
  [Cell.text "PAR", Cell.text "TY VOTES TOTAL", Cell.text ""]

/-- A section whose candidate header row is `rowSplitHdr`, followed by a
well-formed data row. -/
def gridSplitHdr : List (List Cell) :=
  [[Cell.text "1 - X COUNCIL", Cell.text "", Cell.text ""],
   rowSplitHdr,
   [Cell.text "UNP", Cell.text "5", Cell.text "1"]]

/-- A section whose only data row has the party cell " TOTAL ", the summary
marker surrounded by whitespace. -/
def gridPadTotal : List (List Cell) :=
  [[Cell.text "1 - X COUNCIL", Cell.text "", Cell.text ""],
   [Cell.text "Party", Cell.text "Votes", Cell.text "Total"],
   [Cell.text " TOTAL ", Cell.text "2500", Cell.text "3"]]

/-! Specification-worded predicates, used to compare the code against the
sentences of the spec in refinement claims. -/

/-- The header predicate as the specification words it: the case-insensitive
concatenation of all the cell texts of the row — with no separator —
contains "PARTY", "VOTES" and "TOTAL". -/
def specHeaderPred (row : List Cell) : Bool :=
  isSubL "PARTY".toList (specConcat row) && isSubL "VOTES".toList (specConcat row)
    && isSubL "TOTAL".toList (specConcat row)
where
  /-- Upper-cased separator-free concatenation of the cell texts. -/
  specConcat (row : List Cell) : List Char :=
    upperL (List.flatten (row.map fun c => (cellStr c).toList))

/-- The section-cell predicate as the specification words it: the trimmed
cell text starts with `"n -"` for some ordinal 1 ≤ n ≤ 23, and its
lower-casing contains "council" or "sabha". -/
def specQualProp (s : String) : Prop :=
  (∃ n : Nat, 1 ≤ n ∧ n ≤ 23 ∧ (secPre n).toList <+: trimL s.toList) ∧
    ("council".toList <:+: lowerL (trimL s.toList) ∨
      "sabha".toList <:+: lowerL (trimL s.toList))

/-- The space-joined header condition, stated at the propositional level. -/
def hdrProp (row : List Cell) : Prop :=
  "PARTY".toList <:+: rowJoined row ∧ "VOTES".toList <:+: rowJoined row ∧
    "TOTAL".toList <:+: rowJoined row

/-! Basic facts about the string primitives. -/

theorem isPreL_iff (p l : List Char) : isPreL p l = true ↔ p <+: l := by
  induction p generalizing l with
  | nil => simp [isPreL]
  | cons a xs ih =>
    cases l with
    | nil => simp [isPreL]
    | cons b ys =>
      simp [isPreL, List.cons_prefix_cons, ih, and_comm]

theorem isSubL_iff (p l : List Char) : isSubL p l = true ↔ p <:+: l := by
  induction l with
  | nil => simp [isSubL, List.isEmpty_iff]
  | cons b rest ih =>
    simp only [isSubL, Bool.or_eq_true, isPreL_iff, ih, List.infix_cons_iff]

theorem dropWhile_head_false {α : Type} (p : α → Bool) (l : List α) :
    ∀ x ∈ (l.dropWhile p).head?, p x = false := by
  induction l with
  | nil => simp
  | cons a t ih =>
    by_cases h : p a
    · simpa [List.dropWhile_cons_of_pos h] using ih
    · simp only [Bool.not_eq_true] at h
      simp [List.dropWhile_cons_of_neg, h]

theorem dropWhile_eq_self {α : Type} (p : α → Bool) (l : List α)
    (h : ∀ x ∈ l.head?, p x = false) : l.dropWhile p = l := by
  cases l with
  | nil => rfl
  | cons a t =>
    have ha : p a = false := h a (by simp)
    simp [List.dropWhile_cons, ha]

theorem getLast?_of_suffix {α : Type} {e r : List α} (h : e <:+ r) (he : e ≠ []) :
    e.getLast? = r.getLast? := by
  obtain ⟨t, rfl⟩ := h
  obtain ⟨a, e, rfl⟩ := List.exists_cons_of_ne_nil he
  rw [List.getLast?_append]
  cases hg : (a :: e).getLast? with
  | none => simp [List.getLast?_eq_none_iff] at hg
  | some x => simp

theorem trimL_head_false (l : List Char) :
    ∀ x ∈ (trimL l).head?, isWS x = false := by
  intro x hx
  unfold trimL at hx
  rw [List.head?_reverse] at hx
  rcases he : ((l.dropWhile isWS).reverse.dropWhile isWS) with _ | ⟨a, t⟩
  · rw [he] at hx; simp at hx
  · have hsuf : (l.dropWhile isWS).reverse.dropWhile isWS <:+ (l.dropWhile isWS).reverse :=
      List.dropWhile_suffix isWS
    have hne : (l.dropWhile isWS).reverse.dropWhile isWS ≠ [] := by simp [he]
    have : ((l.dropWhile isWS).reverse.dropWhile isWS).getLast? =
        ((l.dropWhile isWS).reverse).getLast? := getLast?_of_suffix hsuf hne
    rw [this, List.getLast?_reverse] at hx
    exact dropWhile_head_false isWS l x hx

theorem trimL_getLast_false (l : List Char) :
    ∀ x ∈ (trimL l).getLast?, isWS x = false := by
  intro x hx
  unfold trimL at hx
  rw [List.getLast?_reverse] at hx
  exact dropWhile_head_false isWS _ x hx

theorem trimL_idem (l : List Char) : trimL (trimL l) = trimL l := by
  have h1 : (trimL l).dropWhile isWS = trimL l :=
    dropWhile_eq_self isWS (trimL l) (trimL_head_false l)
  have h2 : (trimL l).reverse.dropWhile isWS = (trimL l).reverse := by
    refine dropWhile_eq_self isWS (trimL l).reverse ?_
    intro x hx
    rw [List.head?_reverse] at hx
    exact trimL_getLast_false l x hx
  show ((((trimL l).dropWhile isWS).reverse).dropWhile isWS).reverse = trimL l
  rw [h1, h2, List.reverse_reverse]

/-! Structural facts about row processing and result assembly. -/

theorem getD_mem {α : Type} (l : List α) (d : α) (i : Nat) (h : i < l.length) :
    l.getD i d ∈ l := by
  induction l generalizing i with
  | nil => simp at h
  | cons a t ih =>
    cases i with
    | zero => simp
    | succ j =>
      have := ih j (by simpa using h)
      simp only [List.getD_cons_succ]
      exact List.mem_cons_of_mem a this

theorem rowData_mem_ne {row : List Cell} {x : String} (h : x ∈ rowData row) :
    x ≠ "nan" ∧ x ≠ "" := by
  unfold rowData at h
  have := (List.mem_filter.mp h).2
  constructor <;> intro he <;> subst he <;> simp at this

theorem stepRow_emit_inv {row : List Cell} {r : Record}
    (h : stepRow row = RowStep.emit r) :
    r.party ≠ "" ∧ upperStr r.party ≠ "TOTAL" := by
  unfold stepRow at h
  split at h
  · exact absurd h (by simp)
  · rename_i hlen
    split at h
    · exact absurd h (by simp)
    · exact absurd h (by simp)
    · split at h
      · exact absurd h (by simp)
      · exact absurd h (by simp)
      · split at h
        · exact absurd h (by simp)
        · rename_i htot
          cases h
          refine ⟨?_, htot⟩
          have hmem : (rowData row).getD 0 "" ∈ rowData row :=
            getD_mem _ _ _ (by omega)
          exact (rowData_mem_ne hmem).2

theorem runRows_no_header {rows : List (List Cell)}
    (h : ∀ r ∈ rows, isHeaderRow r = false) :
    runRows rows false = Except.ok [] := by
  induction rows with
  | nil => rfl
  | cons row rest ih =>
    have hr := h row (by simp)
    simp [runRows, hr]
    exact ih fun r hrr => h r (List.mem_cons_of_mem _ hrr)

theorem runRows_split {pre post : List (List Cell)} {hrow : List Cell}
    (h : ∀ r ∈ pre, isHeaderRow r = false) (hh : isHeaderRow hrow = true) :
    runRows (pre ++ hrow :: post) false = runRows post true := by
  induction pre with
  | nil => simp [runRows, hh]
  | cons row rest ih =>
    have hr := h row (by simp)
    simp only [List.cons_append, runRows, hr, Bool.false_eq_true, if_false]
    exact ih fun r hrr => h r (List.mem_cons_of_mem _ hrr)

theorem runRows_filterMap {rows : List (List Cell)}
    (h : ∀ row ∈ rows, stepRow row ≠ RowStep.err) :
    runRows rows true = Except.ok (rows.filterMap emittedOf) := by
  induction rows with
  | nil => rfl
  | cons row rest ih =>
    have hrest := ih fun r hr => h r (List.mem_cons_of_mem _ hr)
    have hrow := h row (by simp)
    simp only [runRows, List.filterMap_cons]
    cases hs : stepRow row with
    | skip => simpa [emittedOf, hs] using hrest
    | err => exact absurd hs hrow
    | emit r => simp [emittedOf, hs, hrest]

theorem runRows_mem {rows : List (List Cell)} {b : Bool} {recs : List Record}
    {r : Record} (h : runRows rows b = Except.ok recs) (hr : r ∈ recs) :
    ∃ row ∈ rows, stepRow row = RowStep.emit r := by
  induction rows generalizing b recs with
  | nil =>
    cases b <;> simp only [runRows] at h <;> cases h <;> simp at hr
  | cons row rest ih =>
    cases b with
    | false =>
      by_cases hh : isHeaderRow row
      · simp only [runRows, if_pos hh] at h
        obtain ⟨row2, hm, he⟩ := ih h hr
        exact ⟨row2, List.mem_cons_of_mem _ hm, he⟩
      · simp only [runRows, if_neg hh] at h
        obtain ⟨row2, hm, he⟩ := ih h hr
        exact ⟨row2, List.mem_cons_of_mem _ hm, he⟩
    | true =>
      simp only [runRows] at h
      cases hs : stepRow row with
      | skip =>
        rw [hs] at h
        obtain ⟨row2, hm, he⟩ := ih h hr
        exact ⟨row2, List.mem_cons_of_mem _ hm, he⟩
      | err => rw [hs] at h; cases h
      | emit r0 =>
        rw [hs] at h
        cases hrest : runRows rest true with
        | error e => rw [hrest] at h; cases h
        | ok recs0 =>
          rw [hrest] at h
          cases h
          rcases List.mem_cons.mp hr with hq | hq
          · exact ⟨row, by simp, by rw [hs, hq]⟩
          · obtain ⟨row2, hm, he⟩ := ih hrest hq
            exact ⟨row2, List.mem_cons_of_mem _ hm, he⟩

theorem insertRS_mem {m : List (String × List Record)} {k k0 : String}
    {v v0 : List Record} (h : (k, v) ∈ insertRS m k0 v0) :
    (k, v) ∈ m ∨ (k = k0 ∧ v = v0) := by
  unfold insertRS at h
  split at h
  · obtain ⟨p, hp, hfp⟩ := List.mem_map.mp h
    by_cases hk : p.1 = k0
    · rw [if_pos hk] at hfp
      right
      exact ⟨(Prod.mk.injEq .. ▸ hfp).1.symm, (Prod.mk.injEq .. ▸ hfp).2.symm⟩
    · rw [if_neg hk] at hfp
      left
      exact hfp ▸ hp
  · rcases List.mem_append.mp h with hm | hm
    · exact Or.inl hm
    · right
      simpa using hm

theorem insertRS_keyMem {m : List (String × List Record)} {k k0 : String}
    {v0 : List Record} :
    (∃ v, (k, v) ∈ insertRS m k0 v0) ↔ (∃ v, (k, v) ∈ m) ∨ k = k0 := by
  constructor
  · rintro ⟨v, hv⟩
    rcases insertRS_mem hv with hm | ⟨hk, _⟩
    · exact Or.inl ⟨v, hm⟩
    · exact Or.inr hk
  · intro h
    unfold insertRS
    rcases h with ⟨v, hv⟩ | rfl
    · split
      · refine ⟨if k = k0 then v0 else v, ?_⟩
        have := List.mem_map_of_mem (fun p => if p.1 = k0 then (k0, v0) else p) hv
        by_cases hk : k = k0
        · simpa [hk] using this
        · simpa [hk] using this
      · exact ⟨v, List.mem_append_left _ hv⟩
    · split
      · rename_i hany
        obtain ⟨p, hp, hdk⟩ := List.any_eq_true.mp hany
        have hpk : p.1 = k := of_decide_eq_true hdk
        refine ⟨v0, ?_⟩
        have := List.mem_map_of_mem (fun p => if p.1 = k then (k, v0) else p) hp
        simpa [hpk] using this
      · exact ⟨v0, List.mem_append_right _ (by simp)⟩

theorem foldl_stepSec_mem (g : List (List Cell)) (secs : List (Nat × String × Nat)) :
    ∀ (m : List (String × List Record)) (k : String) (v : List Record),
      (k, v) ∈ secs.foldl (stepSec g) m →
      (k, v) ∈ m ∨ ∃ a ∈ secs, a.2.1 = k ∧ processSection g a.1 a.2.2 = some v := by
  induction secs with
  | nil => intro m k v h; exact Or.inl h
  | cons a secs ih =>
    intro m k v h
    rw [List.foldl_cons] at h
    rcases ih (stepSec g m a) k v h with hm | ⟨b, hb, hbk, hbp⟩
    · unfold stepSec at hm
      rcases hp : processSection g a.1 a.2.2 with _ | tbl
      · rw [hp] at hm
        exact Or.inl hm
      · rw [hp] at hm
        rcases insertRS_mem hm with hm2 | ⟨rfl, rfl⟩
        · exact Or.inl hm2
        · exact Or.inr ⟨a, by simp, rfl, hp⟩
    · exact Or.inr ⟨b, List.mem_cons_of_mem _ hb, hbk, hbp⟩

theorem foldl_stepSec_keyMem (g : List (List Cell)) (secs : List (Nat × String × Nat)) :
    ∀ (m : List (String × List Record)) (k : String),
      (∃ v, (k, v) ∈ secs.foldl (stepSec g) m) ↔
      (∃ v, (k, v) ∈ m) ∨ ∃ a ∈ secs, a.2.1 = k ∧ processSection g a.1 a.2.2 ≠ none := by
  induction secs with
  | nil => intro m k; simp
  | cons a secs ih =>
    intro m k
    rw [List.foldl_cons, ih]
    rcases hp : processSection g a.1 a.2.2 with _ | tbl
    · unfold stepSec
      rw [hp]
      constructor
      · rintro (hm | hrest)
        · exact Or.inl hm
        · exact Or.inr (by obtain ⟨b, hb, h1, h2⟩ := hrest; exact ⟨b, List.mem_cons_of_mem _ hb, h1, h2⟩)
      · rintro (hm | ⟨b, hb, h1, h2⟩)
        · exact Or.inl hm
        · rcases List.mem_cons.mp hb with rfl | hb2
          · exact absurd hp h2
          · exact Or.inr ⟨b, hb2, h1, h2⟩
    · unfold stepSec
      rw [hp, insertRS_keyMem]
      constructor
      · rintro ((hm | rfl) | hrest)
        · exact Or.inl hm
        · exact Or.inr ⟨a, by simp, rfl, by rw [hp]; simp⟩
        · exact Or.inr (by obtain ⟨b, hb, h1, h2⟩ := hrest; exact ⟨b, List.mem_cons_of_mem _ hb, h1, h2⟩)
      · rintro (hm | ⟨b, hb, h1, h2⟩)
        · exact Or.inl (Or.inl hm)
        · rcases List.mem_cons.mp hb with rfl | hb2
          · exact Or.inl (Or.inr h1.symm)
          · exact Or.inr ⟨b, hb2, h1, h2⟩

theorem foldl_stepSec_skip (g : List (List Cell)) (a : Nat × String × Nat)
    (hp : processSection g a.1 a.2.2 = none)
    (l1 l2 : List (Nat × String × Nat)) (m : List (String × List Record)) :
    (l1 ++ a :: l2).foldl (stepSec g) m = (l1 ++ l2).foldl (stepSec g) m := by
  rw [List.foldl_append, List.foldl_append, List.foldl_cons]
  have : stepSec g (l1.foldl (stepSec g) m) a = l1.foldl (stepSec g) m := by
    unfold stepSec
    rw [hp]
  rw [this]

theorem processSection_ne_none (g : List (List Cell)) (s e : Nat) :
    processSection g s e ≠ none ↔
    ∃ recs, runRows (sectionRows g s e) false = Except.ok recs ∧ recs ≠ [] := by
  unfold processSection
  rcases h : runRows (sectionRows g s e) false with e0 | recs
  · simp
  · rcases hr : recs.isEmpty with _ | _
    · have : recs ≠ [] := by simpa [List.isEmpty_iff] using hr
      simp [hr, this]
    · have : recs = [] := by simpa [List.isEmpty_iff] using hr
      simp [hr, this]

/-! Facts about section detection. -/

theorem rowSectionCell_some {row : List Cell} {t : String}
    (h : rowSectionCell row = some t) :
    ∃ l1 c l2, row = l1 ++ c :: l2 ∧
      (∀ c2 ∈ l1, cellQualifies (cellStr c2) = false) ∧
      cellQualifies (cellStr c) = true ∧ t = stripStr (cellStr c) := by
  induction row with
  | nil => simp [rowSectionCell] at h
  | cons c rest ih =>
    unfold rowSectionCell at h
    by_cases hq : cellQualifies (cellStr c) = true
    · rw [if_pos hq] at h
      cases h
      exact ⟨[], c, rest, rfl, by simp, hq, rfl⟩
    · rw [if_neg hq] at h
      obtain ⟨l1, c0, l2, heq, hfail, hq0, ht⟩ := ih h
      refine ⟨c :: l1, c0, l2, by rw [heq]; rfl, ?_, hq0, ht⟩
      intro c2 hc2
      rcases List.mem_cons.mp hc2 with rfl | hc2
      · simpa using hq
      · exact hfail c2 hc2

theorem rowSectionCell_isSome (row : List Cell) :
    (∃ t, rowSectionCell row = some t) ↔
      ∃ c ∈ row, cellQualifies (cellStr c) = true := by
  induction row with
  | nil => simp [rowSectionCell]
  | cons c rest ih =>
    unfold rowSectionCell
    by_cases hq : cellQualifies (cellStr c) = true
    · simp only [if_pos hq]
      constructor
      · intro _; exact ⟨c, by simp, hq⟩
      · intro _; exact ⟨stripStr (cellStr c), rfl⟩
    · simp only [if_neg hq, ih]
      constructor
      · rintro ⟨c0, hc0, hq0⟩
        exact ⟨c0, List.mem_cons_of_mem _ hc0, hq0⟩
      · rintro ⟨c0, hc0, hq0⟩
        rcases List.mem_cons.mp hc0 with rfl | hc0
        · exact absurd hq0 hq
        · exact ⟨c0, hc0, hq0⟩

theorem detectFrom_mem (l : List (List Cell)) :
    ∀ (i j : Nat) (t : String),
      (j, t) ∈ detectFrom i l ↔
        (i ≤ j ∧ ∃ row, l[j - i]? = some row ∧ rowSectionCell row = some t) := by
  induction l with
  | nil => intro i j t; simp [detectFrom]
  | cons row rest ih =>
    intro i j t
    unfold detectFrom
    rcases hr : rowSectionCell row with _ | t0
    · rw [ih (i + 1) j t]
      constructor
      · rintro ⟨hij, row2, hget, hrsc⟩
        refine ⟨by omega, row2, ?_, hrsc⟩
        have heq : j - i = (j - (i + 1)) + 1 := by omega
        rw [heq, List.getElem?_cons_succ]
        exact hget
      · rintro ⟨hij, row2, hget, hrsc⟩
        by_cases hji : j = i
        · subst hji
          rw [Nat.sub_self, List.getElem?_cons_zero] at hget
          cases hget
          rw [hrsc] at hr
          cases hr
        · have hij2 : i + 1 ≤ j := by omega
          refine ⟨hij2, row2, ?_, hrsc⟩
          have heq : j - i = (j - (i + 1)) + 1 := by omega
          rw [heq, List.getElem?_cons_succ] at hget
          exact hget
    · constructor
      · intro hmem
        rcases List.mem_cons.mp hmem with hpair | hrest
        · cases hpair
          exact ⟨Nat.le_refl i, row, by simp, hr⟩
        · obtain ⟨hij, row2, hget, hrsc⟩ := (ih (i + 1) j t).mp hrest
          refine ⟨by omega, row2, ?_, hrsc⟩
          have heq : j - i = (j - (i + 1)) + 1 := by omega
          rw [heq, List.getElem?_cons_succ]
          exact hget
      · rintro ⟨hij, row2, hget, hrsc⟩
        by_cases hji : j = i
        · subst hji
          rw [Nat.sub_self, List.getElem?_cons_zero] at hget
          cases hget
          rw [hrsc] at hr
          cases hr
          exact List.mem_cons_self _ _
        · have hij2 : i + 1 ≤ j := by omega
          have heq : j - i = (j - (i + 1)) + 1 := by omega
          rw [heq, List.getElem?_cons_succ] at hget
          exact List.mem_cons_of_mem _
            ((ih (i + 1) j t).mpr ⟨hij2, row2, hget, hrsc⟩)

theorem detectFrom_ge (l : List (List Cell)) :
    ∀ (i : Nat) (p : Nat × String), p ∈ detectFrom i l → i ≤ p.1 := by
  induction l with
  | nil => intro i p h; simp [detectFrom] at h
  | cons row rest ih =>
    intro i p h
    unfold detectFrom at h
    rcases hr : rowSectionCell row with _ | t0 <;> rw [hr] at h
    · exact Nat.le_of_succ_le (ih (i + 1) p h)
    · rcases List.mem_cons.mp h with rfl | h2
      · exact Nat.le_refl i
      · exact Nat.le_of_succ_le (ih (i + 1) p h2)

theorem detectFrom_pairwise (l : List (List Cell)) :
    ∀ i : Nat, List.Pairwise (fun a b => a.1 < b.1) (detectFrom i l) := by
  induction l with
  | nil => intro i; simp [detectFrom]
  | cons row rest ih =>
    intro i
    unfold detectFrom
    rcases hr : rowSectionCell row with _ | t0
    · exact ih (i + 1)
    · refine List.Pairwise.cons ?_ (ih (i + 1))
      intro b hb
      exact Nat.lt_of_succ_le (detectFrom_ge rest (i + 1) b hb)

/-! Equivalence of the detection test with the specification wording. -/

theorem mem_secPres (p : String) :
    p ∈ secPres ↔ ∃ n : Nat, 1 ≤ n ∧ n ≤ 23 ∧ p = secPre n := by
  unfold secPres
  rw [List.mem_map]
  constructor
  · rintro ⟨n, hn, rfl⟩
    obtain ⟨i, hi, rfl⟩ := List.mem_range'.mp hn
    exact ⟨1 + 1 * i, by omega, by omega, rfl⟩
  · rintro ⟨n, h1, h2, rfl⟩
    exact ⟨n, List.mem_range'.mpr ⟨n - 1, by omega, by omega⟩, rfl⟩

theorem secPres_lower : ∀ p ∈ secPres, lowerL p.toList = p.toList := by decide

theorem isPreAny_iff (l : List Char) :
    cellQualifies.isPreAny l = true ↔
      ∃ n : Nat, 1 ≤ n ∧ n ≤ 23 ∧ (secPre n).toList <+: l := by
  unfold cellQualifies.isPreAny
  rw [List.any_eq_true]
  constructor
  · rintro ⟨p, hp, hpre⟩
    obtain ⟨n, h1, h2, rfl⟩ := (mem_secPres p).mp hp
    exact ⟨n, h1, h2, (isPreL_iff _ _).mp hpre⟩
  · rintro ⟨n, h1, h2, hpre⟩
    exact ⟨secPre n, (mem_secPres _).mpr ⟨n, h1, h2, rfl⟩, (isPreL_iff _ _).mpr hpre⟩

theorem isPreAny_lower {l : List Char} (h : cellQualifies.isPreAny l = true) :
    cellQualifies.isPreAny (lowerL l) = true := by
  unfold cellQualifies.isPreAny at h ⊢
  rw [List.any_eq_true] at h ⊢
  obtain ⟨p, hp, hpre⟩ := h
  obtain ⟨t, rfl⟩ := (isPreL_iff _ _).mp hpre
  refine ⟨p, hp, (isPreL_iff _ _).mpr ?_⟩
  unfold lowerL
  rw [List.map_append]
  rw [show List.map Char.toLower p.toList = p.toList from secPres_lower p hp]
  exact ⟨List.map Char.toLower t, rfl⟩

theorem cellQualifies_iff (s : String) :
    cellQualifies s = true ↔ specQualProp s := by
  unfold cellQualifies specQualProp
  rw [trimL_idem]
  constructor
  · intro h
    rw [Bool.and_eq_true, Bool.and_eq_true] at h
    obtain ⟨⟨hA, _⟩, hC⟩ := h
    refine ⟨(isPreAny_iff _).mp hA, ?_⟩
    rw [Bool.or_eq_true] at hC
    rcases hC with hC | hC
    · exact Or.inl ((isSubL_iff _ _).mp hC)
    · exact Or.inr ((isSubL_iff _ _).mp hC)
  · rintro ⟨h1, h2⟩
    have hA : cellQualifies.isPreAny (trimL s.toList) = true := (isPreAny_iff _).mpr h1
    rw [Bool.and_eq_true, Bool.and_eq_true]
    refine ⟨⟨hA, isPreAny_lower hA⟩, ?_⟩
    rw [Bool.or_eq_true]
    rcases h2 with h2 | h2
    · exact Or.inl ((isSubL_iff _ _).mpr h2)
    · exact Or.inr ((isSubL_iff _ _).mpr h2)

/-! Shared bridge from stored tables back to the emitting rows. -/

theorem recordSource {g : List (List Cell)} {k : String} {tbl : List Record}
    {r : Record} (hm : (k, tbl) ∈ parse_election_data g) (hr : r ∈ tbl) :
    0 < r.votes ∧ ∃ row, stepRow row = RowStep.emit r := by
  unfold parse_election_data at hm
  rcases foldl_stepSec_mem g _ [] k tbl hm with h | ⟨a, _, _, hp⟩
  · simp at h
  · unfold processSection at hp
    split at hp
    · cases hp
    · rename_i recs hrun
      split at hp
      · cases hp
      · cases hp
        have h2 := List.mem_filter.mp hr
        refine ⟨of_decide_eq_true h2.2, ?_⟩
        obtain ⟨row, _, hrow⟩ := runRows_mem hrun h2.1
        exact ⟨row, hrow⟩

/-! The claims. -/

/-- C1, counterexample: in `gridZero` the only section emits exactly one raw
record, with zero votes; the zero-vote filter empties the table, yet
`parse_election_data` still stores an entry for the section (the guard at
app.py:87 tests the unfiltered list), where the claim requires the title
to be absent. -/
theorem claim_C1_counterexample :
    runRows (sectionRows gridZero 0 3) false = Except.ok [⟨"UNP", 0, 1⟩] ∧
      parse_election_data gridZero = [("1 - X COUNCIL", [])] := by
  decide

/-- C1, amended: a title has an entry in the ResultSet exactly when some
detected section carrying that title completes without an exception and
emits a non-empty RAW record sequence; the stored table is the zero-vote
filtering of that sequence and may itself be empty. -/
theorem claim_C1 (g : List (List Cell)) (k : String) :
    (∃ v, (k, v) ∈ parse_election_data g) ↔
      ∃ a ∈ withEnds (detectSections g) g.length, a.2.1 = k ∧
        ∃ recs, runRows (sectionRows g a.1 a.2.2) false = Except.ok recs ∧
          recs ≠ [] := by
  unfold parse_election_data
  rw [foldl_stepSec_keyMem]
  simp only [List.not_mem_nil, false_and, exists_const, false_or]
  constructor
  · rintro ⟨a, ha, hk, hne⟩
    exact ⟨a, ha, hk, (processSection_ne_none g a.1 a.2.2).mp hne⟩
  · rintro ⟨a, ha, hk, hok⟩
    exact ⟨a, ha, hk, (processSection_ne_none g a.1 a.2.2).mpr hok⟩

/-- C2, counterexample: `gridNeg` stores the record
`{party := " UNP ", votes := 5, seats := -1}`: the party string is not
trimmed (the code uses the raw cell at app.py:69) and the seats value is
negative (`int(float("-1"))` at app.py:73), where the claim requires a
trimmed party and non-negative seats. -/
theorem claim_C2_counterexample :
    parse_election_data gridNeg = [("1 - X COUNCIL", [⟨" UNP ", 5, -1⟩])] ∧
      stripStr " UNP " ≠ " UNP " ∧ (-1 : Int) < 0 := by
  decide

/-- C2, amended: every stored Record has a non-empty party string (the empty
string is filtered out of the usable row values) and strictly positive —
hence non-negative — votes; the party string may carry surrounding
whitespace and the seats value may be negative. -/
theorem claim_C2 (g : List (List Cell)) (k : String) (tbl : List Record)
    (r : Record) (hm : (k, tbl) ∈ parse_election_data g) (hr : r ∈ tbl) :
    r.party ≠ "" ∧ 0 < r.votes := by
  obtain ⟨hv, row, hrow⟩ := recordSource hm hr
  exact ⟨(stepRow_emit_inv hrow).1, hv⟩

/-- Witness for C2 on Scenario A. -/
theorem claim_C2_witness :
    (⟨"UNP", 1500, 2⟩ : Record).party ≠ "" ∧
      0 < (⟨"UNP", 1500, 2⟩ : Record).votes :=
  claim_C2 gridA "1 - MANNAR URBAN COUNCIL"
    [⟨"UNP", 1500, 2⟩, ⟨"SLPP", 1000, 1⟩] ⟨"UNP", 1500, 2⟩
    (by decide) (by decide)

/-- C3, counterexample: the row `["A", "inf", "1"]` raises `OverflowError`
inside `int(float(...))`, which the row handler at app.py:82 does not
catch; the section aborts, so the valid row `["B", "5", "1"]` after it is
lost: `gridInf` parses to the empty mapping, while the same grid without
the infinite row keeps the record for B. -/
theorem claim_C3_counterexample :
    stepRow [Cell.text "A", Cell.text "inf", Cell.text "1"] = RowStep.err ∧
      parse_election_data gridInf = [] ∧
      parse_election_data gridInfCut = [("1 - X COUNCIL", [⟨"B", 5, 1⟩])] := by
  decide

/-- C3, amended: a row with fewer than three usable values is skipped, and a
`ValueError` from numeric coercion of the votes or seats source skips the
row; however an infinite float value raises an uncaught `OverflowError`
that aborts the whole section.  In the absence of such an abort every row
after the header is processed independently and the section's records are
exactly those the rows emit. -/
theorem claim_C3 :
    (∀ row : List Cell, (rowData row).length < 3 → stepRow row = RowStep.skip) ∧
      (∀ row : List Cell,
        coerceField ((rowData row).getD 1 "") = CoRes.valErr →
        stepRow row = RowStep.skip) ∧
      (∀ (row : List Cell) (n : Int),
        coerceField ((rowData row).getD 1 "") = CoRes.ok n →
        coerceField ((rowData row).getD 2 "") = CoRes.valErr →
        stepRow row = RowStep.skip) ∧
      (∀ rows : List (List Cell),
        (∀ row ∈ rows, stepRow row ≠ RowStep.err) →
        runRows rows true = Except.ok (rows.filterMap emittedOf)) := by
  refine ⟨?_, ?_, ?_, ?_⟩
  · intro row h
    unfold stepRow
    rw [if_pos h]
  · intro row h
    unfold stepRow
    by_cases hlen : (rowData row).length < 3
    · rw [if_pos hlen]
    · rw [if_neg hlen, h]
  · intro row n h1 h2
    unfold stepRow
    by_cases hlen : (rowData row).length < 3
    · rw [if_pos hlen]
    · rw [if_neg hlen, h1, h2]
  · exact fun rows h => runRows_filterMap h

/-- Witness for C3 on concrete rows: a two-value row, a row with unparsable
votes, a row with unparsable seats, and a two-row run in which the bad row
is skipped and the good row emits. -/
theorem claim_C3_witness :
    stepRow [Cell.text "x"] = RowStep.skip ∧
      stepRow [Cell.text "A", Cell.text "abc", Cell.text "1"] = RowStep.skip ∧
      stepRow [Cell.text "A", Cell.text "5", Cell.text "abc"] = RowStep.skip ∧
      runRows [[Cell.text "A", Cell.text "abc", Cell.text "1"],
        [Cell.text "B", Cell.text "5", Cell.text "1"]] true =
        Except.ok [⟨"B", 5, 1⟩] :=
  ⟨claim_C3.1 _ (by decide), claim_C3.2.1 _ (by decide),
    claim_C3.2.2.1 _ 5 (by decide) (by decide),
    (claim_C3.2.2.2 _ (by decide)).trans (by decide)⟩

/-- C4: every Record stored in the returned ResultSet has strictly positive
votes (the filter at app.py:91) and its party never upper-cases to exactly
"TOTAL" (the guard at app.py:76), which is precisely case-insensitive
inequality with "TOTAL". -/
theorem claim_C4 (g : List (List Cell)) (k : String) (tbl : List Record)
    (r : Record) (hm : (k, tbl) ∈ parse_election_data g) (hr : r ∈ tbl) :
    0 < r.votes ∧ upperStr r.party ≠ "TOTAL" := by
  obtain ⟨hv, row, hrow⟩ := recordSource hm hr
  exact ⟨hv, (stepRow_emit_inv hrow).2⟩

/-- Witness for C4 on Scenario A. -/
theorem claim_C4_witness :
    0 < (⟨"SLFP", 800, 1⟩ : Record).votes ∧
      upperStr (⟨"SLFP", 800, 1⟩ : Record).party ≠ "TOTAL" :=
  claim_C4 gridA "2 - MANNAR PRADESHIYA SABHA" [⟨"SLFP", 800, 1⟩]
    ⟨"SLFP", 800, 1⟩ (by decide) (by decide)

/-- C5: Scenario A parses to exactly the expected two-section ResultSet, in
order, with the TOTAL summary row excluded. -/
theorem claim_C5 :
    parse_election_data gridA =
      [("1 - MANNAR URBAN COUNCIL", [⟨"UNP", 1500, 2⟩, ⟨"SLPP", 1000, 1⟩]),
        ("2 - MANNAR PRADESHIYA SABHA", [⟨"SLFP", 800, 1⟩])] := by
  decide

/-- C6, counterexample: the row `["PAR", "TY VOTES TOTAL", ""]` satisfies the
claim's predicate — its separator-free case-insensitive concatenation is
"PARTY VOTES TOTAL" — yet the code, which joins the cells with spaces
(app.py:58), does not recognize it; consequently the section of
`gridSplitHdr` finds no header at all and yields nothing, although the
valid data row after the would-be header emits a record when reached. -/
theorem claim_C6_counterexample :
    specHeaderPred rowSplitHdr = true ∧ isHeaderRow rowSplitHdr = false ∧
      parse_election_data gridSplitHdr = [] ∧
      stepRow [Cell.text "UNP", Cell.text "5", Cell.text "1"] =
        RowStep.emit ⟨"UNP", 5, 1⟩ := by
  decide

/-- C6, amended: a row is recognized as the header row exactly when the
case-insensitive SPACE-JOINED concatenation of its cell texts contains
"PARTY", "VOTES" and "TOTAL"; while the header is unfound rows emit
nothing, so a section with no such row yields an empty record list with no
error; and the first recognized header row is itself consumed — the run
continues on the rows after it. -/
theorem claim_C6 :
    (∀ row : List Cell, isHeaderRow row = true ↔ hdrProp row) ∧
      (∀ rows : List (List Cell),
        (∀ r ∈ rows, isHeaderRow r = false) →
        runRows rows false = Except.ok []) ∧
      (∀ (pre : List (List Cell)) (hrow : List Cell) (post : List (List Cell)),
        (∀ r ∈ pre, isHeaderRow r = false) → isHeaderRow hrow = true →
        runRows (pre ++ hrow :: post) false = runRows post true) := by
  refine ⟨?_, ?_, ?_⟩
  · intro row
    unfold isHeaderRow hdrProp
    rw [Bool.and_eq_true, Bool.and_eq_true, isSubL_iff, isSubL_iff, isSubL_iff]
    tauto
  · exact fun rows h => runRows_no_header h
  · exact fun pre hrow post h hh => runRows_split h hh

/-- Witness for C6: a headerless single-row section yields the empty list,
and a run whose second row is a real header resumes after that header. -/
theorem claim_C6_witness :
    runRows [[Cell.text "x"]] false = Except.ok [] ∧
      runRows ([[Cell.text "x"]] ++
          [Cell.text "Party", Cell.text "Votes", Cell.text "Total"] ::
          [[Cell.text "UNP", Cell.text "5", Cell.text "1"]]) false =
        runRows [[Cell.text "UNP", Cell.text "5", Cell.text "1"]] true :=
  ⟨claim_C6.2.1 _ (by decide),
    claim_C6.2.2 _ _ _ (by decide) (by decide)⟩

/-- C7: a grid row is recorded as a section start exactly when one of its
cells passes the specification predicate (trimmed text starting with
`"n -"` for an ordinal 1-23 and containing "council" or "sabha"
case-insensitively); the title is the trimmed text of the FIRST qualifying
cell, the cells before it all failing the predicate; and the detected
sections carry strictly increasing row indices. -/
theorem claim_C7 (g : List (List Cell)) :
    (∀ j : Nat, (∃ t, (j, t) ∈ detectSections g) ↔
        ∃ row, g[j]? = some row ∧ ∃ c ∈ row, specQualProp (cellStr c)) ∧
      (∀ (j : Nat) (t : String), (j, t) ∈ detectSections g →
        ∃ row l1 c l2, g[j]? = some row ∧ row = l1 ++ c :: l2 ∧
          (∀ c2 ∈ l1, ¬ specQualProp (cellStr c2)) ∧
          specQualProp (cellStr c) ∧ t = stripStr (cellStr c)) ∧
      List.Pairwise (fun a b => a.1 < b.1) (detectSections g) := by
  refine ⟨?_, ?_, detectFrom_pairwise g 0⟩
  · intro j
    unfold detectSections
    constructor
    · rintro ⟨t, ht⟩
      obtain ⟨-, row, hget, hrsc⟩ := (detectFrom_mem g 0 j t).mp ht
      rw [Nat.sub_zero] at hget
      obtain ⟨c, hc, hq⟩ := (rowSectionCell_isSome row).mp ⟨t, hrsc⟩
      exact ⟨row, hget, c, hc, (cellQualifies_iff _).mp hq⟩
    · rintro ⟨row, hget, c, hc, hq⟩
      obtain ⟨t, ht⟩ := (rowSectionCell_isSome row).mpr
        ⟨c, hc, (cellQualifies_iff _).mpr hq⟩
      refine ⟨t, (detectFrom_mem g 0 j t).mpr ⟨Nat.zero_le j, row, ?_, ht⟩⟩
      rw [Nat.sub_zero]
      exact hget
  · intro j t ht
    obtain ⟨-, row, hget, hrsc⟩ := (detectFrom_mem g 0 j t).mp ht
    rw [Nat.sub_zero] at hget
    obtain ⟨l1, c, l2, heq, hfail, hq, htt⟩ := rowSectionCell_some hrsc
    refine ⟨row, l1, c, l2, hget, heq, ?_, (cellQualifies_iff _).mp hq, htt⟩
    intro c2 hc2 hq2
    have := (cellQualifies_iff (cellStr c2)).mpr hq2
    rw [hfail c2 hc2] at this
    cases this

/-- Witness for C7: the first section of Scenario A decomposes as the claim
describes. -/
theorem claim_C7_witness :
    ∃ row l1 c l2, gridA[0]? = some row ∧ row = l1 ++ c :: l2 ∧
      (∀ c2 ∈ l1, ¬ specQualProp (cellStr c2)) ∧
      specQualProp (cellStr c) ∧
      "1 - MANNAR URBAN COUNCIL" = stripStr (cellStr c) :=
  (claim_C7 gridA).2.1 0 "1 - MANNAR URBAN COUNCIL" (by decide)

/-- C8: an exception while building one section's table is absorbed at that
section's boundary — removing a failing (or empty) section from the fold
leaves the mapping built from the remaining sections unchanged, so every
subsequent section still contributes — and the parser is the total
function folding the detected sections, returning a mapping for every
grid. -/
theorem claim_C8 :
    (∀ (g : List (List Cell)) (a : Nat × String × Nat)
        (l1 l2 : List (Nat × String × Nat)) (m : List (String × List Record)),
      processSection g a.1 a.2.2 = none →
      (l1 ++ a :: l2).foldl (stepSec g) m = (l1 ++ l2).foldl (stepSec g) m) ∧
      (∀ g : List (List Cell), parse_election_data g =
        (withEnds (detectSections g) g.length).foldl (stepSec g) []) :=
  ⟨fun g a l1 l2 m h => foldl_stepSec_skip g a h l1 l2 m, fun _ => rfl⟩

/-- Witness for C8: the aborting section of `gridInf` contributes nothing to
the fold. -/
theorem claim_C8_witness :
    ([] ++ ((0 : Nat), "1 - X COUNCIL", (4 : Nat)) :: []).foldl
        (stepSec gridInf) [] = ([] ++ []).foldl (stepSec gridInf) [] :=
  claim_C8.1 gridInf (0, "1 - X COUNCIL", 4) [] [] [] (by decide)

/-- C9: the parse result is a pure function of the grid — it does not depend
on the ambient diagnostic log, the only state the source function touches
(`st.write` at app.py:34 only appends to it), so two invocations on the
same grid, in whatever states, return identical ResultSets. -/
theorem claim_C9 (g : List (List Cell)) (log1 log2 : List String) :
    (parseWithLog log1 g).2 = (parseWithLog log2 g).2 := rfl

/-- C10: the summary-row test at app.py:76 upper-cases the RAW first usable
value and compares it with "TOTAL" under plain equality, so any data row
whose first usable value does not upper-case to exactly "TOTAL" — in
particular " TOTAL ", the marker surrounded by whitespace — is emitted
when its numeric fields parse; concretely, `gridPadTotal` stores the
record for " TOTAL " with its positive votes. -/
theorem claim_C10 :
    (∀ (w v u : String) (n m : Int),
      w ≠ "nan" → w ≠ "" → v ≠ "nan" → v ≠ "" → u ≠ "nan" → u ≠ "" →
      coerceInt v = CoRes.ok n → coerceInt u = CoRes.ok m →
      upperStr w ≠ "TOTAL" →
      stepRow [Cell.text w, Cell.text v, Cell.text u] =
        RowStep.emit ⟨w, n, m⟩) ∧
      parse_election_data gridPadTotal =
        [("1 - X COUNCIL", [⟨" TOTAL ", 2500, 3⟩])] := by
  constructor
  · intro w v u n m hw1 hw2 hv1 hv2 hu1 hu2 hcv hcu htot
    have hbw : (!(w == "nan") && !(w == "")) = true := by simp [hw1, hw2]
    have hbv : (!(v == "nan") && !(v == "")) = true := by simp [hv1, hv2]
    have hbu : (!(u == "nan") && !(u == "")) = true := by simp [hu1, hu2]
    have hrd : rowData [Cell.text w, Cell.text v, Cell.text u] = [w, v, u] := by
      unfold rowData
      simp only [List.map_cons, List.map_nil, cellStr, List.filter_cons,
        hbw, hbv, hbu, if_true, List.filter_nil]
    unfold stepRow
    rw [hrd]
    have h1 : coerceField v = CoRes.ok n := by
      unfold coerceField
      rw [if_neg hv1, hcv]
    have h2 : coerceField u = CoRes.ok m := by
      unfold coerceField
      rw [if_neg hu1, hcu]
    have hlen : ¬ (([w, v, u] : List String).length < 3) := by simp
    simp only [List.getD_cons_succ, List.getD_cons_zero, h1, h2]
    rw [if_neg hlen, if_neg htot]
  · decide

/-- Witness for C10 at the padded summary marker. -/
theorem claim_C10_witness :
    stepRow [Cell.text " TOTAL ", Cell.text "2500", Cell.text "3"] =
      RowStep.emit ⟨" TOTAL ", 2500, 3⟩ :=
  claim_C10.1 " TOTAL " "2500" "3" 2500 3 (by decide) (by decide) (by decide)
    (by decide) (by decide) (by decide) (by decide) (by decide) (by decide)

/-- Witness for C1: in `gridZero` the stored key is exactly the one whose
section emitted a non-empty raw record list. -/
theorem claim_C1_witness :
    ∃ a ∈ withEnds (detectSections gridZero) gridZero.length,
      a.2.1 = "1 - X COUNCIL" ∧
        ∃ recs, runRows (sectionRows gridZero a.1 a.2.2) false = Except.ok recs ∧
          recs ≠ [] :=
  (claim_C1 gridZero "1 - X COUNCIL").mp ⟨[], by decide⟩
